import Mathlib

/-!
Verification of the `toych` neural-network framework against its specification.

This file shallowly embeds the parts of the repository that the claims under
scrutiny are about:

* `src/layers.py`: `Parameter` (an `np.ndarray` subclass with a lazily
  initialised gradient slot and a dirty flag), the `Layer` wrapper machinery
  (`_wrapped_forward` / `_wrapped_backward`, attribute-based parameter
  registration), the `Dense` layer and the `RBF` layer.
* `src/toych/optim.py`: the `Adam` optimizer's update rule.

NumPy arrays of rank 1 and 2 are embedded as the inductive type `ND` over
`List ℚ` / `List (List ℚ)`; exact rational arithmetic stands in for the
floating point arithmetic of the source (none of the claims depends on
rounding).  Operations that can raise (`ValueError` on a shape mismatch,
`IndexError`) return `Option`; `none` models the raised Python exception.
Adam is embedded over `ℝ` because its update divides by `sqrt`.

Modelling notes, fixed once here:
* The layers in every claim are configured without an activation and without
  dropout (`activation=None`, `dropout=0`), so the corresponding `if` branches
  of `_wrapped_forward` / `_wrapped_backward` are omitted (they are no-ops for
  this configuration).  The claim about backward-before-forward is settled on a
  wrapper parametrised over the whole subclass body, which covers every layer
  because the `self.output is None` check precedes all other work.
* NumPy broadcasting between arrays of genuinely different shapes, 0-d scalar
  results, and empty (zero-row) matrices are outside the `ND` model; every
  theorem below stays inside the modelled fragment (nonempty rectangular
  matrices), and each such spot is marked in a comment.
-/

/-! ## Rank-1 / rank-2 arrays -/

abbrev Vec := List ℚ

abbrev Mat := List (List ℚ)

/-- A NumPy array of rank 1 (`v1`) or rank 2 (`v2`). -/
inductive ND where
  | v1 : Vec → ND
  | v2 : Mat → ND
deriving DecidableEq, Repr

/-- Dot product of two vectors (the inner contraction of `np.matmul`). -/
def dotQ (xs ys : Vec) : ℚ := (List.zipWith (fun a b => a * b) xs ys).sum

/-- The `j`-th column of a matrix. -/
def colQ (M : Mat) (j : ℕ) : Vec := M.map (fun r => r.getD j 0)

/-- Matrix transpose (`.T`); the column count is read off the first row, as
NumPy reads it off the shape.  Faithful for nonempty rectangular matrices. -/
def trQ (M : Mat) : Mat := (List.range (M.headD []).length).map (colQ M)

/-- Rank-2 by rank-2 matrix product `A @ B` (shapes assumed compatible). -/
def matMulQ (A B : Mat) : Mat := A.map (fun r => (trQ B).map (dotQ r))

/-- Elementwise matrix sum (NumPy `+` on two arrays of one common shape). -/
def matAddQ (A B : Mat) : Mat := List.zipWith (fun r s => List.zipWith (fun a b => a + b) r s) A B

/-- NumPy `@` with its shape check: a mismatch of the contracted axes raises
`ValueError`, modelled as `none`.  A 1-D operand is promoted by NumPy's rule
(append/prepend an axis, drop it from the result). -/
def matmulND : ND → ND → Option ND
  | .v2 A, .v2 B => if (A.headD []).length = B.length then some (.v2 (matMulQ A B)) else none
  | .v2 A, .v1 b => if (A.headD []).length = b.length then some (.v1 (A.map (fun r => dotQ r b))) else none
  | .v1 a, .v2 B => if a.length = B.length then some (.v1 ((trQ B).map (dotQ a))) else none
  | .v1 _, .v1 _ => none  -- a 1-D · 1-D product is a 0-d scalar, outside this model;
                          -- unreachable from the layer API as embedded below

/-- NumPy `.T`: transposes a rank-2 array, leaves a rank-1 array unchanged. -/
def ndT : ND → ND
  | .v1 a => .v1 a
  | .v2 M => .v2 (trQ M)

/-- NumPy `np.sum(·, axis=0)` of a rank-2 array: the vector of column sums.
On a rank-1 array the result is a 0-d scalar, outside this model (unreachable
below: the source computes the matrix product `input.T @ error` first, which
already fails in every configuration reaching that case in a theorem). -/
def sumAxis0 : ND → Option ND
  | .v2 M => some (.v1 ((trQ M).map (fun c => c.sum)))
  | .v1 _ => none

/-- NumPy `np.insert(grad, 0, row, axis=0)`: prepend a row to a rank-2 array;
inserting a row of the wrong length raises. -/
def insertRow0 : ND → ND → Option ND
  | .v2 M, .v1 b => if b.length = (M.headD []).length then some (.v2 (b :: M)) else none
  | _, _ => none  -- other rank combinations are unreachable below

/-- Row-broadcast sum `M + b` of a rank-2 array and a rank-1 array (the bias
addition of `Dense.forward`); a length mismatch raises.  (Degenerate NumPy
broadcasts with axes of size 1 are outside the modelled fragment.) -/
def addRowBroadcast (M : Mat) (b : Vec) : Option Mat :=
  if ∀ r ∈ M, r.length = b.length then some (M.map (fun r => List.zipWith (fun a c => a + c) r b)) else none

/-- Elementwise sum of two arrays of one common shape (the `+` in `grad +=`);
shape-mixing broadcasts are outside the modelled fragment. -/
def addND : ND → ND → Option ND
  | .v1 a, .v1 b => if a.length = b.length then some (.v1 (List.zipWith (fun x y => x + y) a b)) else none
  | .v2 A, .v2 B =>
      if A.length = B.length ∧ ∀ p ∈ A.zip B, p.1.length = p.2.length
      then some (.v2 (matAddQ A B)) else none
  | _, _ => none

/-- Whether `len(np.shape(input)) > 1`. -/
def ND.isBatched : ND → Bool
  | .v1 _ => false
  | .v2 _ => true

/-- The reshape `np.reshape(input, [n, -1])` of `Layer._wrapped_forward`:
a rank-1 array becomes a single-row matrix, a rank-2 array is unchanged. -/
def reshapeRows : ND → Mat
  | .v1 a => [a]
  | .v2 M => M

/-- Projection to the rank-2 payload (layer weight matrices are always 2-D). -/
def ndMat : ND → Mat
  | .v1 _ => []
  | .v2 M => M

/-! ## `Parameter` (`src/layers.py`)

The Python class stores the gradient in a lazily created attribute `_grad`
(`0` until something is recorded) together with a dirty flag `_dirty`.
`Option` models attribute absence; `GradVal.zero` models the Python int `0`. -/

/-- The value held in the `_grad` attribute: the initial Python `0`, or an
array once a gradient has been recorded. -/
inductive GradVal where
  | zero : GradVal
  | nd : ND → GradVal
deriving DecidableEq, Repr

/-- `0 + g` is `g`; `array + array` needs one common shape. -/
def addGradVal : GradVal → ND → Option GradVal
  | .zero, g => some (.nd g)
  | .nd h, g => (addND h g).map .nd

/-- A `Parameter` of `src/layers.py`: its array value, plus the lazily created
`_grad` and `_dirty` attributes (`none` = the attribute does not exist yet). -/
structure Parameter where
  value : ND
  gradSlot : Option GradVal := none
  dirtySlot : Option Bool := none
deriving DecidableEq, Repr

/-- The `grad` property getter: lazily zero-initialised. -/
def Parameter.grad (p : Parameter) : GradVal := p.gradSlot.getD .zero

/-- `Parameter.zero_grad`: reset `_grad` to `0` and clear `_dirty`. -/
def Parameter.zeroGrad (p : Parameter) : Parameter :=
  { p with gradSlot := some .zero, dirtySlot := some false }

/-- The `need_update` property (`self._dirty`); `none` models the
`AttributeError` raised when neither `grad` accessor has run yet. -/
def Parameter.needUpdate (p : Parameter) : Option Bool := p.dirtySlot

/-- The statement `self.weights.grad += grad`: read the (lazily zero) gradient,
add the contribution, store it back and set the dirty flag. -/
def Parameter.accGrad (p : Parameter) (g : ND) : Option Parameter :=
  (addGradVal p.grad g).map fun gv => { p with gradSlot := some gv, dirtySlot := some true }

/-- The error of `Parameter.__new__` when neither a value nor a size is given
(the spec's `InvalidArgument`; the source raises `AssertionError`). -/
inductive ParamErr where
  | invalidArgument : ParamErr
deriving DecidableEq, Repr

/-- `Parameter.__new__(value=None, size=..., mean=..., scale=...)`.  The random
initialisation (`np.random.normal`, with the Xavier default scale) and
`np.full` are opaque primitives `rng` and `full`; `mean` and `scale` only
shape the sampled distribution and are absorbed into `rng`. -/
def parameterNew (rng : ℕ → ND) (full : ℕ → ND → ND)
    (value : Option ND) (size : Option ℕ) : Except ParamErr Parameter :=
  match value with
  | none =>
    match size with
    | none => .error .invalidArgument
    | some sz => .ok { value := rng sz }
  | some v =>
    match size with
    | some sz => .ok { value := full sz v }
    | none => .ok { value := v }

/-! ## The generic `Layer._wrapped_backward` guard (`src/layers.py:124-142`)

For the claim about backward-before-forward the wrapper is embedded once,
parametrised over the whole subclass-specific body (dropout and activation
backprop, the subclass `backward`): `body input output error` returns `none`
on a raised exception and `some r` on success, where `r` is the (possibly
`None`) error passed upstream. -/

structure LayerCache where
  input : Option ND := none
  output : Option ND := none
deriving DecidableEq, Repr

/-- `Layer._wrapped_backward`: return `None` when `self.output is None`,
otherwise run the body and clear the cached input and output. -/
def wrappedBackwardGen (body : ND → ND → ND → Option (Option ND))
    (c : LayerCache) (err : ND) : Option (LayerCache × Option ND) :=
  match c.output with
  | none => some (c, none)
  | some out =>
    match c.input with
    | none => none  -- `self.input` unset while `self.output` is set:
                    -- unreachable through the wrapped API
    | some inp =>
      match body inp out err with
      | none => none
      | some res => some ({ input := none, output := none }, res)

/-! ## Claim theorems (first group) -/

/-- C6.  `Parameter(value=None, size=None)` fails with the construction error
(and produces no `Parameter`), for every behaviour of the opaque random
initialiser and fill primitive. -/
theorem parameterNew_no_value_no_size_errors (rng : ℕ → ND) (full : ℕ → ND → ND) :
    parameterNew rng full none none = .error .invalidArgument := rfl

/-- C7.  `zero_grad` is idempotent: after one call the gradient reads zero and
`need_update` is `False`; a second call changes nothing and both facts still
hold. -/
theorem zeroGrad_idempotent (p : Parameter) :
    (p.zeroGrad.grad = .zero ∧ p.zeroGrad.needUpdate = some false) ∧
    (p.zeroGrad.zeroGrad.grad = .zero ∧ p.zeroGrad.zeroGrad.needUpdate = some false) ∧
    p.zeroGrad.zeroGrad = p.zeroGrad := by
  refine ⟨⟨rfl, rfl⟩, ⟨rfl, rfl⟩, rfl⟩

/-- C3.  For every layer body: backward on the initial cache (output `None`)
returns `None` without error; a successful backward from any cache with a
recorded output clears both caches, and the immediately following backward
again returns `None` without error. -/
theorem backward_without_matching_forward (body : ND → ND → ND → Option (Option ND))
    (err err2 : ND) :
    wrappedBackwardGen body ⟨none, none⟩ err = some (⟨none, none⟩, none) ∧
    (∀ c c' res, wrappedBackwardGen body c err = some (c', res) → c.output ≠ none →
      c'.input = none ∧ c'.output = none ∧
      wrappedBackwardGen body c' err2 = some (c', none)) := by
  refine ⟨rfl, ?_⟩
  intro c c' res h hout
  match hc : c.output with
  | none => exact absurd hc hout
  | some out =>
    match hci : c.input with
    | none => simp [wrappedBackwardGen, hc, hci] at h
    | some inp =>
      simp only [wrappedBackwardGen, hc, hci] at h
      match hb : body inp out err with
      | none => simp [hb] at h
      | some res' =>
        simp only [hb] at h
        obtain ⟨hc', -⟩ := Prod.mk.injEq .. ▸ Option.some.injEq .. ▸ h
        subst hc'
        exact ⟨rfl, rfl, rfl⟩

/-- C3 witness: instantiated at a body that succeeds and passes no error
upstream, starting from a cache holding a recorded forward. -/
theorem backward_without_matching_forward_witness :
    wrappedBackwardGen (fun _ _ _ => some none) ⟨none, none⟩ (.v1 [1]) =
      some (⟨none, none⟩, none) ∧
    ((⟨some (.v1 [2]), some (.v1 [3])⟩ : LayerCache).output ≠ none ∧
      wrappedBackwardGen (fun _ _ _ => some none) ⟨some (.v1 [2]), some (.v1 [3])⟩ (.v1 [1]) =
        some (⟨none, none⟩, none)) := by
  refine ⟨(backward_without_matching_forward (fun _ _ _ => some none) (.v1 [1]) (.v1 [4])).1,
    by decide, ?_⟩
  have h := (backward_without_matching_forward (fun _ _ _ => some none) (.v1 [1]) (.v1 [4])).2
    ⟨some (.v1 [2]), some (.v1 [3])⟩ ⟨none, none⟩ none (by decide) (by decide)
  decide

/-! ## The `Dense` layer (`src/layers.py:176-210`)

A built `Dense` layer: `self.weights` is a `Parameter` of shape
`[input_dim + with_bias, size]`.  The wrapped forward and backward transcribe
`Layer._wrapped_forward` / `Layer._wrapped_backward` specialised to a layer
with no activation and no dropout. -/

structure DenseLayer where
  size : ℕ
  inputDim : ℕ
  withBias : Bool
  weights : Parameter
  input : Option ND := none
  output : Option ND := none
deriving DecidableEq, Repr

/-- `Dense.forward`: `input @ weights[1:] + weights[0]` with a bias, plain
`input @ weights` without. -/
def denseForwardSub (wb : Bool) (W : Mat) (input : Mat) : Option Mat :=
  if wb then
    match matmulND (.v2 input) (.v2 W.tail) with
    | some (.v2 prod) => addRowBroadcast prod (W.headD [])
    | _ => none
  else
    match matmulND (.v2 input) (.v2 W) with
    | some (.v2 prod) => some prod
    | _ => none

/-- `Dense.backward`: `grad = input.T @ error`, with a bias prepend the row
`np.sum(error, axis=0)`; then `weights.grad += grad`; if `pass_error`, return
`error @ weights[1:].T`. -/
def denseBackwardSub (wb : Bool) (w : Parameter) (inp err : ND)
    (passErr : Bool) : Option (Parameter × Option ND) :=
  match matmulND (ndT inp) err with
  | none => none
  | some grad0 =>
    let gradStep : Option ND :=
      if wb then
        match sumAxis0 err with
        | none => none
        | some gb => insertRow0 grad0 gb
      else some grad0
    match gradStep with
    | none => none
    | some grad =>
      match w.accGrad grad with
      | none => none
      | some w' =>
        if passErr then
          match matmulND err (ndT (.v2 (ndMat w.value).tail)) with
          | none => none
          | some up => some (w', some up)
        else some (w', none)

/-- `Layer._wrapped_forward` for a built `Dense` layer (no activation, no
dropout): normalise the input to a batch, run the subclass forward, record
input and output, de-batch the output if the caller passed an unbatched
sample. -/
def DenseLayer.wForward (L : DenseLayer) (x : ND) : Option (DenseLayer × ND) :=
  let xb : Mat := reshapeRows x
  match denseForwardSub L.withBias (ndMat L.weights.value) xb with
  | none => none
  | some out =>
    let L' := { L with input := some (.v2 xb), output := some (.v2 out) }
    if x.isBatched then some (L', .v2 out)
    else
      match out with
      | [] => none  -- `output[0]` on an empty batch raises; unreachable (the batch has one row)
      | r :: _ => some (L', .v1 r)

/-- `Layer._wrapped_backward` for a built `Dense` layer (no activation, no
dropout): `None` when no output is recorded, otherwise the subclass backward
followed by clearing the caches. -/
def DenseLayer.wBackward (L : DenseLayer) (err : ND) (passErr : Bool) :
    Option (DenseLayer × Option ND) :=
  match L.output with
  | none => some (L, none)
  | some _ =>
    match L.input with
    | none => none  -- unreachable through the wrapped API
    | some inp =>
      match denseBackwardSub L.withBias L.weights inp err passErr with
      | none => none
      | some (w', up) => some ({ L with weights := w', input := none, output := none }, up)

/-- A freshly built `Dense` layer holding the given weight matrix. -/
def mkDense (inputDim size : ℕ) (wb : Bool) (W : Mat) : DenseLayer :=
  { size := size, inputDim := inputDim, withBias := wb, weights := { value := .v2 W } }

/-- C1.  The concrete `Dense` scenario (`input_dim=3, size=2, with_bias=true`,
weights `[[b0,b1],[w00,w01],[w10,w11],[w20,w21]]`): forward on the batched
input `[[1,2,3]]` returns `b + [1,2,3]·W`; backward with output-gradient
`[[1,1]]` records as the weights' gradient the matrix whose first row is the
column-sum `[1,1]` of the output-gradient and whose remaining rows are
`input.T @ error = [[1,1],[2,2],[3,3]]`, and passes upstream
`[1,1]·W.T = [[w00+w01, w10+w11, w20+w21]]` computed against the non-bias
rows. -/
theorem dense_concrete_scenario (b0 b1 w00 w01 w10 w11 w20 w21 : ℚ) :
    (do
      let (L1, out) ← (mkDense 3 2 true
          [[b0, b1], [w00, w01], [w10, w11], [w20, w21]]).wForward (.v2 [[1, 2, 3]])
      let (L2, up) ← L1.wBackward (.v2 [[1, 1]]) true
      pure (out, up, L2.weights.gradSlot))
    = some (.v2 [[1 * w00 + 2 * w10 + 3 * w20 + b0, 1 * w01 + 2 * w11 + 3 * w21 + b1]],
        some (.v2 [[w00 + w01, w10 + w11, w20 + w21]]),
        some (.nd (.v2 [[1, 1], [1, 1], [2, 2], [3, 3]]))) := by
  simp [mkDense, DenseLayer.wForward, DenseLayer.wBackward, denseForwardSub,
    denseBackwardSub, matmulND, matMulQ, trQ, colQ, dotQ, addRowBroadcast,
    sumAxis0, insertRow0, ndT, ndMat, reshapeRows, Parameter.accGrad,
    Parameter.grad, addGradVal, List.range_succ, ND.isBatched]
  ring_nf
  norm_num [mul_comm]

/-! ## Shape lemmas for the list-based matrices -/

/-- A rectangular `n × k` matrix. -/
def rect (M : Mat) (n k : ℕ) : Prop := M.length = n ∧ ∀ r ∈ M, r.length = k

instance (M : Mat) (n k : ℕ) : Decidable (rect M n k) :=
  decidable_of_iff (M.length = n ∧ ∀ r ∈ M, r.length = k) Iff.rfl

theorem headD_mem {α : Type} (l : List α) (d : α) (h : l ≠ []) : l.headD d ∈ l := by
  cases l with
  | nil => exact absurd rfl h
  | cons a t => simp

theorem rect.ne_nil {M : Mat} {n k : ℕ} (h : rect M n k) (hn : 0 < n) : M ≠ [] := by
  intro he
  obtain ⟨h1, -⟩ := h
  rw [he] at h1
  simp only [List.length_nil] at h1
  omega

theorem rect.headD_length {M : Mat} {n k : ℕ} (h : rect M n k) (hn : 0 < n) :
    (M.headD []).length = k :=
  h.2 _ (headD_mem M [] (h.ne_nil hn))

theorem rect.tail {M : Mat} {n k : ℕ} (h : rect M (n + 1) k) : rect M.tail n k :=
  ⟨by simp [List.length_tail, h.1], fun r hr => h.2 r (List.mem_of_mem_tail hr)⟩

theorem length_trQ (M : Mat) : (trQ M).length = (M.headD []).length := by
  simp [trQ]

theorem mem_trQ_length {M : Mat} {r : Vec} (h : r ∈ trQ M) : r.length = M.length := by
  simp only [trQ, List.mem_map, List.mem_range] at h
  obtain ⟨j, -, rfl⟩ := h
  simp [colQ]

theorem rect_trQ (M : Mat) : rect (trQ M) (M.headD []).length M.length :=
  ⟨length_trQ M, fun _ hr => mem_trQ_length hr⟩

theorem length_matMulQ (A B : Mat) : (matMulQ A B).length = A.length := by
  simp [matMulQ]

theorem mem_matMulQ_length {A B : Mat} {r : Vec} (h : r ∈ matMulQ A B) :
    r.length = (B.headD []).length := by
  simp only [matMulQ, List.mem_map] at h
  obtain ⟨a, -, rfl⟩ := h
  simp [length_trQ]

theorem rect_matMulQ (A B : Mat) : rect (matMulQ A B) A.length (B.headD []).length :=
  ⟨length_matMulQ A B, fun _ hr => mem_matMulQ_length hr⟩

theorem mem_zipWith {α β γ : Type} {f : α → β → γ} {c : γ} :
    ∀ {l₁ : List α} {l₂ : List β}, c ∈ List.zipWith f l₁ l₂ →
      ∃ a b, a ∈ l₁ ∧ b ∈ l₂ ∧ c = f a b := by
  intro l₁
  induction l₁ with
  | nil => intro l₂ h; simp at h
  | cons a t ih =>
    intro l₂ h
    cases l₂ with
    | nil => simp at h
    | cons b s =>
      simp only [List.zipWith_cons_cons, List.mem_cons] at h
      rcases h with rfl | h
      · exact ⟨a, b, by simp, by simp, rfl⟩
      · obtain ⟨a', b', ha, hb, rfl⟩ := ih h
        exact ⟨a', b', by simp [ha], by simp [hb], rfl⟩

theorem rect_matAddQ {A B : Mat} {n k : ℕ} (hA : rect A n k) (hB : rect B n k) :
    rect (matAddQ A B) n k := by
  refine ⟨by simp [matAddQ, hA.1, hB.1], fun r hr => ?_⟩
  obtain ⟨a, b, ha, hb, rfl⟩ := mem_zipWith hr
  simp [hA.2 a ha, hB.2 b hb]

theorem headD_trQ_length {M : Mat} (h : 0 < (M.headD []).length) :
    ((trQ M).headD []).length = M.length := by
  have hne : trQ M ≠ [] := by
    intro he
    have := length_trQ M
    rw [he] at this
    simp only [List.length_nil] at this
    omega
  exact mem_trQ_length (headD_mem (trQ M) [] hne)

theorem headD_matMulQ_length {A B : Mat} (hA : A ≠ []) :
    ((matMulQ A B).headD []).length = (B.headD []).length := by
  have hne : matMulQ A B ≠ [] := by
    intro he
    have := length_matMulQ A B
    rw [he] at this
    simp only [List.length_nil] at this
    exact hA (List.length_eq_zero.mp this.symm)
  exact mem_matMulQ_length (headD_mem (matMulQ A B) [] hne)

/-! ## Closed forms of one Dense round on well-shaped batched data -/

/-- The batched output of `Dense.forward` (derived closed form). -/
def denseF : Bool → Mat → Mat → Mat
  | true, W, x => (matMulQ x W.tail).map (fun r => List.zipWith (fun a c => a + c) r (W.headD []))
  | false, W, x => matMulQ x W

/-- The per-call weight-gradient matrix of `Dense.backward` (derived closed
form): `input.T @ error`, with the column-sum row of the error prepended when
the layer has a bias. -/
def denseG : Bool → Mat → Mat → Mat
  | true, x, e => ((trQ e).map (fun c => c.sum)) :: matMulQ (trQ x) e
  | false, x, e => matMulQ (trQ x) e

/-- The number of weight rows a bias adds. -/
def biasRows : Bool → ℕ
  | true => 1
  | false => 0

theorem denseForwardSub_eval {wb : Bool} {W x : Mat} {d s n : ℕ}
    (hW : rect W (d + biasRows wb) s) (hx : rect x n d)
    (hn : 0 < n) (hd : 0 < d) :
    denseForwardSub wb W x = some (denseF wb W x) := by
  cases wb with
  | false =>
    simp only [biasRows, Nat.add_zero] at hW
    have hhead : (x.headD []).length = W.length := by
      rw [hx.headD_length hn, hW.1]
    rw [List.headD_eq_head?] at hhead
    simp [denseForwardSub, denseF, matmulND, hhead]
  | true =>
    simp only [biasRows] at hW
    have htail : rect W.tail d s := hW.tail
    have hhead : (x.headD []).length = W.tail.length := by
      rw [hx.headD_length hn, htail.1]
    have hrows : ∀ r ∈ matMulQ x W.tail, r.length = (W.headD []).length := by
      intro r hr
      rw [mem_matMulQ_length hr, htail.headD_length hd, hW.headD_length (by omega)]
    rw [List.headD_eq_head?] at hhead
    simp only [List.length_tail] at hhead
    simp only [List.headD_eq_head?] at hrows
    simp [denseForwardSub, denseF, matmulND, hhead, addRowBroadcast]
    exact hrows

theorem rect_denseF {wb : Bool} {W x : Mat} {d s n : ℕ}
    (hW : rect W (d + biasRows wb) s) (hx : rect x n d)
    (_hn : 0 < n) (hd : 0 < d) :
    rect (denseF wb W x) n s := by
  cases wb with
  | false =>
    simp only [biasRows, Nat.add_zero] at hW
    have h := rect_matMulQ x W
    rw [hx.1, hW.headD_length hd] at h
    simpa [denseF] using h
  | true =>
    simp only [biasRows] at hW
    have htail : rect W.tail d s := hW.tail
    refine ⟨by simp [denseF, length_matMulQ, hx.1], fun r hr => ?_⟩
    simp only [denseF, List.mem_map] at hr
    obtain ⟨a, ha, rfl⟩ := hr
    rw [List.length_zipWith, mem_matMulQ_length ha, htail.headD_length hd,
      hW.headD_length (by omega), Nat.min_self]

theorem rect_denseG {wb : Bool} {x e : Mat} {d s n : ℕ}
    (hx : rect x n d) (he : rect e n s) (hn : 0 < n) (_hd : 0 < d) :
    rect (denseG wb x e) (d + biasRows wb) s := by
  have hmul : rect (matMulQ (trQ x) e) d s := by
    have h := rect_matMulQ (trQ x) e
    rw [length_trQ, hx.headD_length hn, he.headD_length hn] at h
    exact h
  cases wb with
  | false => simpa [denseG, biasRows] using hmul
  | true =>
    refine ⟨by simp [denseG, biasRows, hmul.1], fun r hr => ?_⟩
    simp only [denseG, List.mem_cons] at hr
    rcases hr with rfl | hr
    · rw [List.length_map, length_trQ, he.headD_length hn]
    · exact hmul.2 r hr

theorem addND_rect {A B : Mat} {n k : ℕ} (hA : rect A n k) (hB : rect B n k) :
    addND (.v2 A) (.v2 B) = some (.v2 (matAddQ A B)) := by
  have hz : ∀ a b, (a, b) ∈ A.zip B → a.length = b.length := by
    intro a b hp
    obtain ⟨h1, h2⟩ := List.of_mem_zip hp
    rw [hA.2 _ h1, hB.2 _ h2]
  simp only [addND, hA.1, hB.1]
  rw [if_pos ⟨trivial, fun p hp => hz p.1 p.2 hp⟩]

theorem trQ_ne_nil {M : Mat} (h : 0 < (M.headD []).length) : trQ M ≠ [] := by
  intro he
  have := length_trQ M
  rw [he] at this
  simp only [List.length_nil] at this
  omega

theorem denseBackwardSub_eval_nopass {wb : Bool} {w : Parameter} {x e : Mat}
    {d s n : ℕ} {gv : GradVal}
    (hx : rect x n d) (he : rect e n s) (hn : 0 < n) (hd : 0 < d)
    (hacc : addGradVal w.grad (.v2 (denseG wb x e)) = some gv) :
    denseBackwardSub wb w (.v2 x) (.v2 e) false =
      some ({ w with gradSlot := some gv, dirtySlot := some true }, none) := by
  have hxh : (x.headD []).length = d := hx.headD_length hn
  have hcond : ((trQ x).headD []).length = e.length := by
    rw [headD_trQ_length (by omega), hx.1, he.1]
  rw [List.headD_eq_head?] at hcond
  cases wb with
  | false =>
    simp only [denseG] at hacc
    simp [denseBackwardSub, matmulND, ndT, hcond, sumAxis0, Parameter.accGrad, hacc]
  | true =>
    have hins : ((trQ e).map (fun c => c.sum)).length =
        ((matMulQ (trQ x) e).headD []).length := by
      rw [List.length_map, length_trQ, headD_matMulQ_length (trQ_ne_nil (by omega))]
    simp only [denseG] at hacc
    rw [List.headD_eq_head?] at hins
    simp [denseBackwardSub, matmulND, ndT, hcond, sumAxis0, insertRow0, hins,
      Parameter.accGrad, hacc]

theorem denseBackwardSub_eval_pass {wb : Bool} {w : Parameter} {W x e : Mat}
    {d s n : ℕ} {gv : GradVal}
    (hw : w.value = .v2 W) (hW : rect W (d + biasRows wb) s)
    (hx : rect x n d) (he : rect e n s) (hn : 0 < n) (hd : 0 < d)
    (hwb : wb = true ∨ 2 ≤ d)
    (hacc : addGradVal w.grad (.v2 (denseG wb x e)) = some gv) :
    denseBackwardSub wb w (.v2 x) (.v2 e) true =
      some ({ w with gradSlot := some gv, dirtySlot := some true },
        some (.v2 (matMulQ e (trQ W.tail)))) := by
  have hxh : (x.headD []).length = d := hx.headD_length hn
  have hcond : ((trQ x).headD []).length = e.length := by
    rw [headD_trQ_length (by omega), hx.1, he.1]
  rw [List.headD_eq_head?] at hcond
  have htailh : (W.tail.headD []).length = s := by
    cases wb with
    | true =>
      simp only [biasRows] at hW
      exact hW.tail.headD_length hd
    | false =>
      simp only [biasRows, Nat.add_zero] at hW
      rcases hwb with h | h
      · exact absurd h Bool.false_ne_true
      · obtain ⟨d', rfl⟩ : ∃ d', d = d' + 1 := ⟨d - 1, by omega⟩
        exact hW.tail.headD_length (by omega)
  have hup : (e.headD []).length = (trQ W.tail).length := by
    rw [he.headD_length hn, length_trQ, htailh]
  rw [List.headD_eq_head?] at hup
  cases wb with
  | false =>
    simp only [denseG] at hacc
    simp [denseBackwardSub, matmulND, ndT, hcond, sumAxis0, Parameter.accGrad, hacc,
      hw, ndMat, hup]
  | true =>
    have hins : ((trQ e).map (fun c => c.sum)).length =
        ((matMulQ (trQ x) e).headD []).length := by
      rw [List.length_map, length_trQ, headD_matMulQ_length (trQ_ne_nil (by omega))]
    simp only [denseG] at hacc
    rw [List.headD_eq_head?] at hins
    simp [denseBackwardSub, matmulND, ndT, hcond, sumAxis0, insertRow0, hins,
      Parameter.accGrad, hacc, hw, ndMat, hup]

theorem wForward_eval {L : DenseLayer} {W x : Mat} {d s n : ℕ}
    (hw : L.weights.value = .v2 W) (hW : rect W (d + biasRows L.withBias) s)
    (hx : rect x n d) (hn : 0 < n) (hd : 0 < d) :
    L.wForward (.v2 x) =
      some ({ L with input := some (.v2 x), output := some (.v2 (denseF L.withBias W x)) },
        .v2 (denseF L.withBias W x)) := by
  simp [DenseLayer.wForward, reshapeRows, hw, ndMat,
    denseForwardSub_eval hW hx hn hd, ND.isBatched]

theorem wBackward_eval_nopass {L : DenseLayer} {x e o : Mat} {d s n : ℕ} {gv : GradVal}
    (hin : L.input = some (.v2 x)) (hout : L.output = some (.v2 o))
    (hx : rect x n d) (he : rect e n s) (hn : 0 < n) (hd : 0 < d)
    (hacc : addGradVal L.weights.grad (.v2 (denseG L.withBias x e)) = some gv) :
    L.wBackward (.v2 e) false =
      some ({ L with
               weights := { L.weights with gradSlot := some gv, dirtySlot := some true },
               input := none, output := none }, none) := by
  simp [DenseLayer.wBackward, hin, hout, denseBackwardSub_eval_nopass hx he hn hd hacc]

/-- Two training rounds (each a forward then a backward that does not pass the
error) on one `Dense` layer, returning the final gradient slot of `weights`. -/
def denseTwoRounds (L : DenseLayer) (x1 e1 x2 e2 : ND) : Option (Option GradVal) := do
  let (L1, _) ← L.wForward x1
  let (L2, _) ← L1.wBackward e1 false
  let (L3, _) ← L2.wForward x2
  let (L4, _) ← L3.wBackward e2 false
  pure L4.weights.gradSlot

/-- C2.  A fresh `Parameter` reads gradient `0`; and over two Dense
forward/backward rounds the recorded weight gradient is the elementwise sum of
the two per-call gradient matrices (the second call adds to, rather than
replaces, the first). -/
theorem dense_grad_accumulates (wb : Bool) (W x1 e1 x2 e2 : Mat) (d s n1 n2 : ℕ)
    (hW : rect W (d + biasRows wb) s)
    (hx1 : rect x1 n1 d) (he1 : rect e1 n1 s)
    (hx2 : rect x2 n2 d) (he2 : rect e2 n2 s)
    (hn1 : 0 < n1) (hn2 : 0 < n2) (hd : 0 < d) :
    (∀ v : ND, Parameter.grad { value := v } = .zero) ∧
    denseTwoRounds (mkDense d s wb W) (.v2 x1) (.v2 e1) (.v2 x2) (.v2 e2) =
      some (some (.nd (.v2 (matAddQ (denseG wb x1 e1) (denseG wb x2 e2))))) := by
  refine ⟨fun v => rfl, ?_⟩
  have hG1 : rect (denseG wb x1 e1) (d + biasRows wb) s := rect_denseG hx1 he1 hn1 hd
  have hG2 : rect (denseG wb x2 e2) (d + biasRows wb) s := rect_denseG hx2 he2 hn2 hd
  have hacc1 : addGradVal (Parameter.mk (.v2 W) none none).grad (.v2 (denseG wb x1 e1)) =
      some (.nd (.v2 (denseG wb x1 e1))) := rfl
  rw [denseTwoRounds]
  simp only [Option.bind_eq_bind']
  rw [wForward_eval rfl hW hx1 hn1 hd, Option.some_bind']
  dsimp only [mkDense]
  rw [wBackward_eval_nopass rfl rfl hx1 he1 hn1 hd hacc1, Option.some_bind']
  dsimp only
  rw [wForward_eval rfl hW hx2 hn2 hd, Option.some_bind']
  dsimp only
  have hacc2 : addGradVal
      (Parameter.mk (.v2 W) (some (.nd (.v2 (denseG wb x1 e1)))) (some true)).grad
      (.v2 (denseG wb x2 e2)) =
      some (.nd (.v2 (matAddQ (denseG wb x1 e1) (denseG wb x2 e2)))) := by
    simp [Parameter.grad, addGradVal, addND_rect hG1 hG2]
  rw [wBackward_eval_nopass rfl rfl hx2 he2 hn2 hd hacc2, Option.some_bind']
  rfl

/-- C2 witness: both conjuncts at a concrete one-by-one layer and data. -/
theorem dense_grad_accumulates_witness :
    (∀ v : ND, Parameter.grad { value := v } = .zero) ∧
    denseTwoRounds (mkDense 1 1 true [[0], [1]]) (.v2 [[2]]) (.v2 [[3]]) (.v2 [[4]]) (.v2 [[5]]) =
      some (some (.nd (.v2 (matAddQ (denseG true [[2]] [[3]]) (denseG true [[4]] [[5]]))))) :=
  dense_grad_accumulates true [[0], [1]] [[2]] [[3]] [[4]] [[5]] 1 1 1 1
    (by decide) (by decide) (by decide) (by decide) (by decide)
    (by decide) (by decide) (by decide)

/-- C4 (amended).  Forward shape symmetry holds in both conventions: an
unbatched input of length `d` yields an unbatched output of length `s`, a
batched `n × d` input yields a batched `n × s` output.  The upstream gradient,
however, only follows the batched convention: after a batched forward,
backward on a batched `n × s` error returns a batched gradient with `n` rows,
while after an unbatched forward, backward on the unbatched output-shaped
error raises a shape error (whenever `s ≥ 2`) instead of returning an
unbatched gradient. -/
theorem dense_shape_symmetry (wb : Bool) (W : Mat) (x : Vec) (xs e : Mat)
    (d s n : ℕ)
    (hW : rect W (d + biasRows wb) s)
    (hx : x.length = d) (hxs : rect xs n d) (he : rect e n s)
    (hn : 0 < n) (hd : 0 < d) (hwb : wb = true ∨ 2 ≤ d) :
    (∃ L1 y, (mkDense d s wb W).wForward (.v1 x) = some (L1, .v1 y) ∧ y.length = s) ∧
    (∃ L1 Y, (mkDense d s wb W).wForward (.v2 xs) = some (L1, .v2 Y) ∧ rect Y n s ∧
      ∃ L2 U, L1.wBackward (.v2 e) true = some (L2, some (.v2 U)) ∧ U.length = n) ∧
    (∀ eu : Vec, eu.length = s → 2 ≤ s →
      (do
        let (L1, _) ← (mkDense d s wb W).wForward (.v1 x)
        L1.wBackward (.v1 eu) true) = none) := by
  have hx1 : rect [x] 1 d := ⟨rfl, by simpa using hx⟩
  have hF1 := rect_denseF hW hx1 Nat.one_pos hd
  obtain ⟨r, hr⟩ := List.length_eq_one.mp hF1.1
  have hfwd1 : (mkDense d s wb W).wForward (.v1 x) =
      some ({ mkDense d s wb W with
              input := some (.v2 [x]), output := some (.v2 (denseF wb W [x])) }, .v1 r) := by
    simp [DenseLayer.wForward, reshapeRows, ndMat, mkDense,
      denseForwardSub_eval hW hx1 Nat.one_pos hd, ND.isBatched, hr]
  have hacc : addGradVal (Parameter.mk (.v2 W) none none).grad
      (.v2 (denseG wb xs e)) = some (.nd (.v2 (denseG wb xs e))) := rfl
  refine ⟨⟨_, r, hfwd1, ?_⟩, ?_, ?_⟩
  · exact hF1.2 r (hr ▸ List.mem_singleton.mpr rfl)
  · refine ⟨_, denseF wb W xs, wForward_eval rfl hW hxs hn hd, rect_denseF hW hxs hn hd, ?_⟩
    have hbwdFull : ({ mkDense d s wb W with
            input := some (.v2 xs),
            output := some (.v2 (denseF (mkDense d s wb W).withBias W xs)) } :
              DenseLayer).wBackward (.v2 e) true =
        some ({ mkDense d s wb W with
                weights := { value := .v2 W, gradSlot := some (.nd (.v2 (denseG wb xs e))),
                             dirtySlot := some true },
                input := none, output := none },
          some (.v2 (matMulQ e (trQ W.tail)))) := by
      dsimp only [DenseLayer.wBackward, mkDense]
      rw [denseBackwardSub_eval_pass rfl hW hxs he hn hd hwb hacc]
    exact ⟨_, matMulQ e (trQ W.tail), hbwdFull, by rw [length_matMulQ, he.1]⟩
  · intro eu heu hs2
    have h0 : 0 < ([x].headD []).length := by simpa using by omega
    have hcond : ((trQ [x]).headD []).length = 1 := (headD_trQ_length h0).trans rfl
    rw [hfwd1]
    simp only [Option.bind_eq_bind', Option.some_bind']
    dsimp only [DenseLayer.wBackward, mkDense]
    dsimp only [denseBackwardSub, ndT, matmulND]
    rw [if_neg (by rw [hcond, heu]; omega)]

/-- C4 witness: the amended shape statement at a concrete one-input layer. -/
theorem dense_shape_symmetry_witness :
    (∃ L1 y, (mkDense 1 1 true [[5], [1]]).wForward (.v1 [2]) = some (L1, .v1 y) ∧
      y.length = 1) ∧
    (∃ L1 Y, (mkDense 1 1 true [[5], [1]]).wForward (.v2 [[3]]) = some (L1, .v2 Y) ∧
      rect Y 1 1 ∧
      ∃ L2 U, L1.wBackward (.v2 [[4]]) true = some (L2, some (.v2 U)) ∧ U.length = 1) ∧
    (∀ eu : Vec, eu.length = 1 → 2 ≤ 1 →
      (do
        let (L1, _) ← (mkDense 1 1 true [[5], [1]]).wForward (.v1 [2])
        L1.wBackward (.v1 eu) true) = none) :=
  dense_shape_symmetry true [[5], [1]] [2] [[3]] [[4]] 1 1 1
    (by decide) (by decide) (by decide) (by decide)
    (by decide) (by decide) (Or.inl rfl)

/-- C4 counterexample: after an unbatched forward on `[1,2,3]` through a built
`Dense(input_dim=3, size=2, with_bias=True)` layer, backward on the unbatched
output-shaped gradient `[1,1]` raises a shape error (`input.T @ error`
contracts a length-1 axis against a length-2 one) instead of returning an
unbatched upstream gradient, so backward does not follow the forward input's
batching convention. -/
theorem dense_unbatched_backward_shape_error :
    (do
      let (L1, _) ← (mkDense 3 2 true [[0, 0], [1, 0], [0, 1], [1, 1]]).wForward
        (.v1 [1, 2, 3])
      L1.wBackward (.v1 [1, 1]) true) = none := by decide

/-! ## The `Adam` optimizer (`src/toych/optim.py:83-101`)

`Adam.__call__` first increments the step counter `t`, then
`Optimizer.__call__` runs, for the single parameter of the claim's scenario,
`update` followed by clearing the gradient (the defaults `grad_lim=None` and
`reg=None` make `shrink_grad` and `regularize` no-ops).  `np.sqrt` is an
opaque primitive `sqrtFn` (none of the claims depends on its values), which
keeps the embedding in exact `ℚ` arithmetic. -/

structure AdamState where
  t : ℕ
  m : ℚ
  v : ℚ
deriving DecidableEq, Repr

/-- One `Adam` call on a single parameter with value `p` and gradient `g`:
the new optimizer state and the updated parameter value. -/
def adamStep (sqrtFn : ℚ → ℚ) (lr b1 b2 eps : ℚ) (st : AdamState) (p g : ℚ) :
    AdamState × ℚ :=
  let t := st.t + 1
  let m := b1 * st.m + (1 - b1) * g
  let v := b2 * st.v + (1 - b2) * g ^ 2
  let mhat := m / (1 - b1 ^ t)
  let vhat := v / (1 - b2 ^ t)
  (⟨t, m, v⟩, p - lr * mhat / (sqrtFn vhat + eps))

/-- C5.  One Adam call from the zero state (`t=0`, zero moments): the bias
corrections cancel exactly at `t=1` (`m_hat = g`, `v_hat = g^2`) and the
parameter moves by `-lr * g / (sqrt(g^2) + eps)`. -/
theorem adam_first_step (sqrtFn : ℚ → ℚ) (lr b1 b2 eps p g : ℚ)
    (h1 : b1 ≠ 1) (h2 : b2 ≠ 1) :
    adamStep sqrtFn lr b1 b2 eps ⟨0, 0, 0⟩ p g =
      (⟨1, (1 - b1) * g, (1 - b2) * g ^ 2⟩,
        p - lr * g / (sqrtFn (g ^ 2) + eps)) := by
  have hb1 : (1 : ℚ) - b1 ≠ 0 := sub_ne_zero.mpr (Ne.symm h1)
  have hb2 : (1 : ℚ) - b2 ≠ 0 := sub_ne_zero.mpr (Ne.symm h2)
  simp only [adamStep, mul_zero, zero_add, pow_one, Prod.mk.injEq, AdamState.mk.injEq]
  rw [mul_comm (1 - b1) g, mul_div_assoc g, div_self hb1, mul_one,
    mul_comm (1 - b2) (g ^ 2), mul_div_assoc (g ^ 2), div_self hb2, mul_one]
  exact ⟨trivial, rfl⟩

/-- C5 witness: the first Adam step at concrete hyperparameters and data
(with the identity standing in for the opaque square root). -/
theorem adam_first_step_witness :
    adamStep id 1 (9 / 10) (999 / 1000) (1 / 100) ⟨0, 0, 0⟩ 2 3 =
      (⟨1, (1 - 9 / 10) * 3, (1 - 999 / 1000) * 3 ^ 2⟩,
        2 - 1 * 3 / (id ((3 : ℚ) ^ 2) + 1 / 100)) :=
  adam_first_step id 1 (9 / 10) (999 / 1000) (1 / 100) 2 3 (by norm_num) (by norm_num)

/-! ## The `RBF` layer (`src/layers.py:213-276`)

Only `RBF.backward` is embedded (the claim under scrutiny is about the
backward pass; the `output` cache recorded by the wrapped forward holds the
Gaussian activations and is taken as given).  The Python loop updates the set
`nodes_to_update = {winner} ∪ neighbors`; each selected index is updated once
and distinct indices are independent, so the set iteration is transcribed as
one canonical sweep `k = 0 .. size-1` guarded by the selection predicate. -/

/-- First index of the maximum (`np.argmax` keeps the first on ties). -/
def argmaxAux : List ℚ → ℕ → ℕ → ℚ → ℕ
  | [], _, best, _ => best
  | a :: rest, i, best, bestv =>
    if bestv < a then argmaxAux rest (i + 1) i a else argmaxAux rest (i + 1) best bestv

/-- `np.argmax` of a rank-1 array (empty input raises; unreachable here since
the recorded output rows are nonempty in every theorem below). -/
def argmaxIdx : List ℚ → ℕ
  | [] => 0
  | a :: rest => argmaxAux rest 1 0 a

/-- The in-place update `centers[k] += step_size * (input[i] - centers[k])`. -/
def moveCenter (step : ℚ) (x c : Vec) : Vec :=
  List.zipWith (fun ci xi => ci + step * (xi - ci)) c x

/-- Whether center `k` is updated for an input row with activations `o` and
winner `j`: the winner itself, plus (when `update_neighbors` is set) every
center whose activation is within `nb_radius` of the winner's. -/
def rbfSelected (updNb : Bool) (radius : ℚ) (o : Vec) (j k : ℕ) : Prop :=
  k = j ∨ (updNb = true ∧ |o.getD j 0 - o.getD k 0| ≤ radius)

instance (updNb : Bool) (radius : ℚ) (o : Vec) (j k : ℕ) :
    Decidable (rbfSelected updNb radius o j k) :=
  decidable_of_iff (k = j ∨ (updNb = true ∧ |o.getD j 0 - o.getD k 0| ≤ radius)) Iff.rfl

/-- The competitive-learning update of the centers for one input row `x` with
recorded activations `o`. -/
def rbfRowUpdate (size : ℕ) (updNb : Bool) (radius step : ℚ) (C : Mat) (x o : Vec) : Mat :=
  (List.range size).foldl
    (fun cs k =>
      if rbfSelected updNb radius o (argmaxIdx o) k
      then cs.set k (moveCenter step x (cs.getD k []))
      else cs) C

/-- `RBF.backward`'s loop over the input rows (paired with the recorded
activation rows). -/
def rbfUpdate (size : ℕ) (updNb : Bool) (radius step : ℚ) (C X O : Mat) : Mat :=
  (X.zip O).foldl (fun cs p => rbfRowUpdate size updNb radius step cs p.1 p.2) C

/-- A built `RBF` layer: configuration, the `centers` Parameter and the
wrapped-forward caches. -/
structure RBFLayer where
  size : ℕ
  moveCenters : Bool
  stepSize : ℚ
  updateNeighbors : Bool
  nbRadius : ℚ
  centers : Parameter
  input : Option ND := none
  output : Option ND := none
deriving DecidableEq, Repr

/-- `Layer._wrapped_backward` for a built `RBF` layer (no activation, no
dropout): `RBF.backward` ignores the incoming error, optionally moves the
centers (mutating the Parameter's data in place, never its gradient slot) and
returns `None`; the wrapper then clears the caches. -/
def RBFLayer.wBackward (L : RBFLayer) (_err : ND) : Option (RBFLayer × Option ND) :=
  match L.output with
  | none => some (L, none)
  | some out =>
    match L.input with
    | none => none  -- unreachable through the wrapped API
    | some inp =>
      let centers' :=
        if L.moveCenters then
          { L.centers with
            value := .v2 (rbfUpdate L.size L.updateNeighbors L.nbRadius L.stepSize
              (ndMat L.centers.value) (ndMat inp) (ndMat out)) }
        else L.centers
      some ({ L with centers := centers', input := none, output := none }, none)

theorem foldl_range_set {α : Type} (P : ℕ → Prop) [DecidablePred P]
    (g : ℕ → α → α) (d : α) :
    ∀ (s : ℕ) (C : List α) (k : ℕ),
      ((List.range s).foldl
        (fun cs i => if P i then cs.set i (g i (cs.getD i d)) else cs) C)[k]? =
          if k < s ∧ P k then (C[k]?).map (g k) else C[k]? := by
  intro s
  induction s with
  | zero =>
    intro C k
    simp
  | succ s ih =>
    intro C k
    rw [List.range_succ, List.foldl_append, List.foldl_cons, List.foldl_nil]
    by_cases hP : P s
    · rw [if_pos hP]
      rcases eq_or_ne k s with rfl | hk
      · rw [List.getElem?_set_self', List.getD_eq_getElem?_getD, ih,
          if_neg (fun h => absurd h.1 (Nat.lt_irrefl k)),
          if_pos ⟨Nat.lt_succ_self k, hP⟩]
        cases hC : C[k]? with
        | none => rfl
        | some c => rfl
      · rw [List.getElem?_set_ne (Ne.symm hk), ih]
        by_cases hPk : P k
        · rcases Nat.lt_or_ge k s with hks | hks
          · rw [if_pos ⟨hks, hPk⟩, if_pos ⟨by omega, hPk⟩]
          · rw [if_neg (fun h => absurd h.1 (by omega)),
              if_neg (fun h => absurd h.1 (by omega))]
        · rw [if_neg (fun h => absurd h.2 hPk), if_neg (fun h => absurd h.2 hPk)]
    · rw [if_neg hP, ih]
      rcases eq_or_ne k s with rfl | hk
      · rw [if_neg (fun h => absurd h.1 (Nat.lt_irrefl k)),
          if_neg (fun h => absurd h.2 hP)]
      · by_cases hPk : P k
        · rcases Nat.lt_or_ge k s with hks | hks
          · rw [if_pos ⟨hks, hPk⟩, if_pos ⟨by omega, hPk⟩]
          · rw [if_neg (fun h => absurd h.1 (by omega)),
              if_neg (fun h => absurd h.1 (by omega))]
        · rw [if_neg (fun h => absurd h.2 hPk), if_neg (fun h => absurd h.2 hPk)]

theorem foldl_range_set_length {α : Type} (P : ℕ → Prop) [DecidablePred P]
    (g : ℕ → α → α) (d : α) :
    ∀ (s : ℕ) (C : List α),
      ((List.range s).foldl
        (fun cs i => if P i then cs.set i (g i (cs.getD i d)) else cs) C).length =
        C.length := by
  intro s
  induction s with
  | zero => intro C; simp
  | succ s ih =>
    intro C
    rw [List.range_succ, List.foldl_append, List.foldl_cons, List.foldl_nil]
    by_cases hP : P s
    · rw [if_pos hP, List.length_set, ih]
    · rw [if_neg hP, ih]

/-- A built `RBF` layer with `move_centers=True` and the given caches. -/
def mkRBF (size : ℕ) (updNb : Bool) (radius step : ℚ) (c : Parameter)
    (inp out : Option ND) : RBFLayer :=
  { size := size, moveCenters := true, stepSize := step, updateNeighbors := updNb,
    nbRadius := radius, centers := c, input := inp, output := out }

/-- C8.  Backward on a built `RBF` layer with `move_centers` enabled performs
the competitive-learning update and nothing else: it passes no error upstream
(returns `None`) and never touches the centers' gradient slot; and for a
single recorded input row `x` with activations `o`, center `k` ends up moved
one `step_size` fraction toward `x` exactly when `k` is the first index of the
maximal activation or (with `update_neighbors`) within `nb_radius` of it,
and is unchanged otherwise. -/
theorem rbf_backward_competitive (size : ℕ) (updNb : Bool) (radius step : ℚ)
    (C : Mat) (x o : Vec) (gs : Option GradVal) (ds : Option Bool) (err : ND)
    (hsz : C.length = size) :
    (∀ X O : Mat, ∃ L',
      (mkRBF size updNb radius step { value := .v2 C, gradSlot := gs, dirtySlot := ds }
        (some (.v2 X)) (some (.v2 O))).wBackward err = some (L', none) ∧
      L'.centers.gradSlot = gs ∧ L'.centers.dirtySlot = ds ∧
      L'.input = none ∧ L'.output = none ∧
      L'.centers.value = .v2 (rbfUpdate size updNb radius step C X O)) ∧
    (ndMat (.v2 (rbfUpdate size updNb radius step C [x] [o]) : ND)).length = size ∧
    (∀ k, (rbfUpdate size updNb radius step C [x] [o])[k]? =
      if k < size ∧ rbfSelected updNb radius o (argmaxIdx o) k
      then (C[k]?).map (moveCenter step x)
      else C[k]?) := by
  refine ⟨fun X O => ⟨_, rfl, rfl, rfl, rfl, rfl, rfl⟩, ?_, ?_⟩
  · exact (foldl_range_set_length
      (fun j => rbfSelected updNb radius o (argmaxIdx o) j)
      (fun _ c => moveCenter step x c) [] size C).trans hsz
  · intro k
    exact foldl_range_set
      (fun j => rbfSelected updNb radius o (argmaxIdx o) j)
      (fun _ c => moveCenter step x c) [] size C k

/-! ## Identity semantics of the optimizer-keyed `Param`

Modelled from the spec: the class `toych.core.Param` (imported by
`src/toych/optim.py`, which keys its per-parameter state dictionaries
`old_delta`, `m` and `v` by it) is not part of the sources; the spec states
that it "compares/hashes by identity, not by value, so it can key a mapping
from Parameter to per-optimizer running state".  Identity is embedded as an
object id carried by the value; a Python dict keyed by such objects is
embedded as a map from object id, since identity equality/hashing makes the
id the whole key. -/

structure Param where
  oid : ℕ
  data : ND
deriving DecidableEq, Repr

/-- Identity comparison (`p is q`, which is what identity-based `==` and
`hash` make dict lookup use). -/
def Param.same (p q : Param) : Bool := p.oid == q.oid

/-- A per-parameter optimizer state dictionary keyed by `Param` identity. -/
def ParamDict (α : Type) : Type := ℕ → Option α

/-- Empty dict (`{}` in `SGD.__init__` / `defaultdict` in `Adam.__init__`). -/
def ParamDict.empty {α : Type} : ParamDict α := fun _ => none

/-- `d[p] = a`. -/
def ParamDict.insert {α : Type} (d : ParamDict α) (p : Param) (a : α) : ParamDict α :=
  fun i => if i = p.oid then some a else d i

/-- `d[p]` (`none` when `p not in d`). -/
def ParamDict.find {α : Type} (d : ParamDict α) (p : Param) : Option α := d p.oid

/-- C9.  `Param.same` is reflexive, and holds precisely for one object id
(identity, not value: it ignores the data).  Consequently two distinct
`Param`s carrying equal values key distinct entries of an optimizer state
dictionary: after storing `a` under `p` and `b` under `q`, lookup of `p`
still yields `a` and lookup of `q` yields `b`. -/
theorem param_identity_keys (v : ND) (i j : ℕ) (a b : ℚ) (h : i ≠ j) :
    (∀ p : Param, p.same p = true) ∧
    (∀ p q : Param, p.same q = true ↔ p.oid = q.oid) ∧
    (((ParamDict.empty.insert ⟨i, v⟩ a).insert ⟨j, v⟩ b).find ⟨i, v⟩ = some a ∧
      ((ParamDict.empty.insert ⟨i, v⟩ a).insert ⟨j, v⟩ b).find ⟨j, v⟩ = some b) := by
  refine ⟨fun p => by simp [Param.same], fun p q => by simp [Param.same], ?_, ?_⟩
  · simp [ParamDict.find, ParamDict.insert, ParamDict.empty, h]
  · simp [ParamDict.find, ParamDict.insert, ParamDict.empty]

/-- C9 witness: two distinct ids with one common value. -/
theorem param_identity_keys_witness :
    (∀ p : Param, p.same p = true) ∧
    (∀ p q : Param, p.same q = true ↔ p.oid = q.oid) ∧
    ((((ParamDict.empty (α := ℚ)).insert ⟨0, .v1 [1]⟩ 5).insert ⟨1, .v1 [1]⟩ 7).find
        ⟨0, .v1 [1]⟩ = some 5 ∧
      (((ParamDict.empty (α := ℚ)).insert ⟨0, .v1 [1]⟩ 5).insert ⟨1, .v1 [1]⟩ 7).find
        ⟨1, .v1 [1]⟩ = some 7) :=
  param_identity_keys (.v1 [1]) 0 1 5 7 (by decide)

/-! ## `Layer.__setattr__` parameter tracking (`src/layers.py:144-155`)

The object's attribute store and the auto-maintained `self.parameters` dict
are embedded as maps from attribute name (names abstracted as `ℕ`); the
reserved name `parameters` itself is outside the model (assigning to it
replaces the dict wholesale).  A non-`Parameter` value is anything else a
Python attribute can hold, abstracted as `PyVal.other`. -/

inductive PyVal where
  | param : Parameter → PyVal
  | other : ℕ → PyVal
deriving DecidableEq, Repr

structure LayerAttrs where
  attrs : ℕ → Option PyVal
  params : ℕ → Option Parameter

/-- A freshly constructed object: no attributes, empty `parameters` dict
(created on the first `__setattr__`). -/
def initLayerAttrs : LayerAttrs := ⟨fun _ => none, fun _ => none⟩

/-- `Layer.__setattr__(name, value)`: a `Parameter` value is added to
`self.parameters` under `name`; a non-`Parameter` value evicts a previous
entry of `name` from the dict; the attribute itself is always set. -/
def setattrL (L : LayerAttrs) (name : ℕ) (v : PyVal) : LayerAttrs :=
  { attrs := fun m => if m = name then some v else L.attrs m
    params :=
      match v with
      | .param p => fun m => if m = name then some p else L.params m
      | .other _ => fun m => if m = name then none else L.params m }

/-- A sequence of attribute assignments on a fresh object. -/
def runSetattrs (asgns : List (ℕ × PyVal)) : LayerAttrs :=
  asgns.foldl (fun L a => setattrL L a.1 a.2) initLayerAttrs

/-- C10.  After any sequence of attribute assignments, a name is a key of
`self.parameters` exactly when the attribute currently bound to that name is
a `Parameter`; in particular assigning a `Parameter` to a name places it in
the dict and assigning a non-`Parameter` value removes the name from it. -/
theorem layer_setattr_params_invariant (asgns : List (ℕ × PyVal)) :
    (∀ n, ((runSetattrs asgns).params n).isSome ↔
      ∃ p, (runSetattrs asgns).attrs n = some (.param p)) ∧
    (∀ L name p, (setattrL L name (.param p)).params name = some p) ∧
    (∀ L name k, (setattrL L name (.other k)).params name = none) := by
  refine ⟨?_, fun L name p => by simp [setattrL], fun L name k => by simp [setattrL]⟩
  have step : ∀ (L : LayerAttrs) (name : ℕ) (v : PyVal),
      (∀ n, (L.params n).isSome ↔ ∃ p, L.attrs n = some (.param p)) →
      ∀ n, ((setattrL L name v).params n).isSome ↔
        ∃ p, (setattrL L name v).attrs n = some (.param p) := by
    intro L name v ih n
    rcases eq_or_ne n name with rfl | hne
    · cases v with
      | param p => simp [setattrL]
      | other k => simp [setattrL]
    · cases v with
      | param p => simpa [setattrL, hne] using ih n
      | other k => simpa [setattrL, hne] using ih n
  have run : ∀ (asgns : List (ℕ × PyVal)) (L : LayerAttrs),
      (∀ n, (L.params n).isSome ↔ ∃ p, L.attrs n = some (.param p)) →
      ∀ n, ((asgns.foldl (fun L a => setattrL L a.1 a.2) L).params n).isSome ↔
        ∃ p, (asgns.foldl (fun L a => setattrL L a.1 a.2) L).attrs n = some (.param p) := by
    intro asgns
    induction asgns with
    | nil => intro L hL; exact hL
    | cons a rest ihr =>
      intro L hL
      exact ihr (setattrL L a.1 a.2) (step L a.1 a.2 hL)
  exact run asgns initLayerAttrs (fun n => by simp [initLayerAttrs])

/-- C8 witness: a two-center layer, one input row whose winner is center 1. -/
theorem rbf_backward_competitive_witness :
    (∀ X O : Mat, ∃ L',
      (mkRBF 2 false 0 (1 / 2)
          { value := .v2 [[0, 0], [10, 10]], gradSlot := none, dirtySlot := none }
          (some (.v2 X)) (some (.v2 O))).wBackward (.v1 []) = some (L', none) ∧
      L'.centers.gradSlot = none ∧ L'.centers.dirtySlot = none ∧
      L'.input = none ∧ L'.output = none ∧
      L'.centers.value = .v2 (rbfUpdate 2 false 0 (1 / 2) [[0, 0], [10, 10]] X O)) ∧
    (ndMat (.v2 (rbfUpdate 2 false 0 (1 / 2) [[0, 0], [10, 10]] [[4, 4]] [[1, 2]]) : ND)).length
      = 2 ∧
    (∀ k, (rbfUpdate 2 false 0 (1 / 2) [[0, 0], [10, 10]] [[4, 4]] [[1, 2]])[k]? =
      if k < 2 ∧ rbfSelected false 0 [1, 2] (argmaxIdx [1, 2]) k
      then (([[0, 0], [10, 10]] : Mat)[k]?).map (moveCenter (1 / 2) [4, 4])
      else ([[0, 0], [10, 10]] : Mat)[k]?) :=
  rbf_backward_competitive 2 false 0 (1 / 2) [[0, 0], [10, 10]] [4, 4] [1, 2]
    none none (.v1 []) rfl
